import Mathlib

/-!
Formal model of the VideoDownloaderBot core (src/main.py) and proofs of the
behavioural properties claimed for it.

Modelling conventions, used consistently below:
* Python dicts with a fixed key set become Lean structures; a dict entry that
  may be missing (or may hold a non-numeric value where the code checks
  `isinstance(x, int)`) becomes an `Option` field.
* Timestamps (`time.time()`, `datetime.now()`) are integer milliseconds, so the
  1.8-second edit throttle is exactly 1800 and the 600-second pending TTL is
  exactly 600000.
* Python numeric metadata (byte sizes, bitrates, frame rates) is modelled with
  `Int`; Python float division followed by `int(...)` truncation is exact
  integer arithmetic at every place it is used here (e.g. `br * 1000 / 8` with
  `br * 1000` always divisible by 8), so `Int` division coincides with it on
  the guarded non-negative operands.
* Network and chat-platform effects are oracles passed in as parameters
  (`probe`, `sendOk`) or recorded in result fields; in-place dict mutation is
  modelled by returning the post-call state of the mutated object explicitly.
* Global mutable dicts become association lists threaded through the
  functions that read or write them.
-/

/- ===== Configuration constants (src/main.py lines 27-43) ===== -/

/-- Line 28, `EDIT_INTERVAL_SEC = 1.8`, in milliseconds. -/
def EDIT_INTERVAL_MS : Int := 1800

/-- Line 34, `PENDING_TTL_SEC = 10 * 60`, in milliseconds. -/
def PENDING_TTL_MS : Int := 10 * 60 * 1000

/-- Line 37, `MAX_SEND_BYTES = int(getattr(config, "max_filesize", 50_000_000))`,
with the config default. -/
def MAX_SEND_BYTES : Int := 50000000

/-- Line 43, `AUDIO_HEADROOM_BYTES = 1_500_000`. -/
def AUDIO_HEADROOM_BYTES : Int := 1500000

/- ===== Small Python-semantics helpers ===== -/

/-- Association-list lookup, modelling `dict.get(k)` (keys are unique). -/
def alookup {α : Type} (k : String) : List (String × α) → Option α
  | [] => none
  | (k2, v) :: rest => if k = k2 then some v else alookup k rest

/-- Association-list write, modelling `dict[k] = v`. -/
def aupdate {α : Type} (k : String) (v : α) : List (String × α) → List (String × α)
  | [] => [(k, v)]
  | (k2, v2) :: rest => if k = k2 then (k, v) :: rest else (k2, v2) :: aupdate k v rest

/-- Association-list removal, modelling `dict.pop(k, None)`. -/
def aremove {α : Type} (k : String) : List (String × α) → List (String × α)
  | [] => []
  | (k2, v2) :: rest => if k = k2 then rest else (k2, v2) :: aremove k rest

/-- `a or b` on an optional number, with Python truthiness: `None` and `0`
fall through to the right operand. -/
def pyOrInt (x : Option Int) (y : Int) : Int :=
  match x with
  | some v => if v = 0 then y else v
  | none => y

/-- Keep a positive integer, rejecting `None`, non-positive values (mirrors the
`isinstance(v, int) and v > 0` guards). -/
def posInt (x : Option Int) : Option Int :=
  match x with
  | some v => if 0 < v then some v else none
  | none => none

/-- Character-list version of `str.startswith`. -/
def chPre : List Char → List Char → Bool
  | [], _ => true
  | _ :: _, [] => false
  | a :: as, b :: bs => a = b && chPre as bs

/-- `u.startswith("http")` from line 503. -/
def startsWithHttp (u : String) : Bool := chPre "http".toList u.toList

/-- Split a character list at every occurrence of the separator. -/
def splitChAux (c : Char) : List Char → List (List Char)
  | [] => [[]]
  | a :: rest =>
    let r := splitChAux c rest
    if a = c then [] :: r
    else
      match r with
      | h :: t => (a :: h) :: t
      | [] => [[a]]

/-- Python `s.split(sep)` for the one-character separator used by the
callback-data tokens (`"dl|mode|rid"`, `"cnl|job_id"`). -/
def pySplit (c : Char) (s : String) : List String :=
  (splitChAux c s.toList).map (fun cs => String.mk cs)

/-- Python truthiness of an optional string used as a probe URL:
`[f.get("url")] if f.get("url") else []` (lines 395, 452-455). -/
def urlList (u : Option String) : List String :=
  match u with
  | some s => if s = "" then [] else [s]
  | none => []

/- ===== Data model ===== -/

/-- One entry of `meta["formats"]` as read by the planners: the fields the
selection and size code touches.  String/number fields that `dict.get` can
miss are `Option`s. -/
structure Fmt where
  ext : Option String
  vcodec : Option String
  acodec : Option String
  height : Option Int
  fps : Option Int
  tbr : Option Int
  abr : Option Int
  filesize : Option Int
  filesize_approx : Option Int
  url : Option String
  format_id : String
  deriving DecidableEq

/-- The slice of the `yt_dlp.extract_info` result the planners read. -/
structure Meta where
  duration : Option Int
  formats : List Fmt
  deriving DecidableEq

/-- A video/document delivery plan dict as built by `_best_progressive_mp4`,
`_best_separate_mp4_m4a` or the `"unknown"` fallback (lines 368-491). -/
structure VideoPlan where
  kind : String
  format_spec : String
  merge_output_format : Option String
  estimated_size : Option Int
  estimated_confident : Bool
  probe_urls : List String
  quality_label : String
  deriving DecidableEq

/-- An audio plan dict as built by `_build_audio_plan_mp3` (lines 535-542). -/
structure AudioPlan where
  format_spec : String
  merge_output_format : Option String
  mp3_kbps : Int
  estimated_size : Int
  estimated_confident : Bool
  quality_label : String
  deriving DecidableEq

/- ===== Size planner (lines 338-491) ===== -/

/-- `_duration_sec` (lines 338-342): a known positive duration or nothing. -/
def _duration_sec (meta : Meta) : Option Int :=
  match meta.duration with
  | some d => if 0 < d then some d else none
  | none => none

/-- `_format_size_bytes` (lines 345-365): `(size_bytes, confident)`.
`confident` only for a declared `filesize`/`filesize_approx`; the
bitrate-derived estimate `int(dur * (tbr * 1000 / 8.0))` (exact integer
arithmetic here) is never confident. -/
def _format_size_bytes (f : Fmt) (dur : Option Int) : Option Int × Bool :=
  match posInt f.filesize with
  | some fs => (some fs, true)
  | none =>
    match posInt f.filesize_approx with
    | some fsa => (some fsa, true)
    | none =>
      match dur, f.tbr with
      | some d, some tbr =>
        if d ≠ 0 ∧ 0 < tbr then
          let est := d * (tbr * 1000 / 8)
          if 0 < est then (some est, false) else (none, false)
        else (none, false)
      | _, _ => (none, false)

/-- The `(int(height), int(fps), float(tbr))` selection key of lines 386 and
424, with the `or 0` defaults. -/
def fmtKey (f : Fmt) : Int × Int × Int :=
  (pyOrInt f.height 0, pyOrInt f.fps 0, pyOrInt f.tbr 0)

/-- Strict lexicographic comparison of selection keys: Python tuple `<`. -/
def kltB (x y : Int × Int × Int) : Bool :=
  decide (x.1 < y.1 ∨ (x.1 = y.1 ∧ (x.2.1 < y.2.1 ∨ (x.2.1 = y.2.1 ∧ x.2.2 < y.2.2))))

/-- `key > best_key` for the video keys. -/
def progLtB (g f : Fmt) : Bool := kltB (fmtKey g) (fmtKey f)

/-- `abr = f.get("abr") or f.get("tbr") or 0` (line 432), with truthiness. -/
def audKey (f : Fmt) : Int := pyOrInt f.abr (pyOrInt f.tbr 0)

/-- `key > best_key` for the audio-only keys. -/
def audLtB (g f : Fmt) : Bool := decide (audKey g < audKey f)

/-- Eligibility filter of `_best_progressive_mp4` (lines 377-380):
mp4 container with both codecs present (`None != "none"` passes). -/
def progElig (f : Fmt) : Bool :=
  f.ext = some "mp4" && !(f.vcodec = some "none") && !(f.acodec = some "none")

/-- Video-only eligibility of `_best_separate_mp4_m4a` (line 420). -/
def vElig (f : Fmt) : Bool :=
  f.ext = some "mp4" && !(f.vcodec = some "none") && f.acodec = some "none"

/-- Audio-only eligibility of `_best_separate_mp4_m4a` (line 431). -/
def aElig (f : Fmt) : Bool :=
  f.vcodec = some "none" && !(f.acodec = some "none") &&
    (f.ext = some "m4a" || f.ext = some "mp4")

/-- One step of the running-best loops (lines 387-398, 425-428, 434-437): an
incoming element replaces the current best only when its key is strictly
greater, so a later element that merely ties never replaces an earlier one. -/
def pickStep {α : Type} (elig : α → Bool) (slt : α → α → Bool)
    (best : Option α) (f : α) : Option α :=
  if elig f then
    match best with
    | none => some f
    | some b => if slt b f then some f else some b
  else best

/-- The whole running-best scan over the format list. -/
def pickBest {α : Type} (elig : α → Bool) (slt : α → α → Bool) (l : List α) :
    Option α :=
  l.foldl (pickStep elig slt) none

/-- The plan dict built for the winning progressive format (lines 389-397);
in the source it is rebuilt at each replacement, which is observably the same
as building it once from the final winner. -/
def mkProgPlan (dur : Option Int) (f : Fmt) : VideoPlan :=
  let sc := _format_size_bytes f dur
  let height := pyOrInt f.height 0
  { kind := "progressive"
    format_spec := f.format_id
    merge_output_format := none
    estimated_size := sc.1
    estimated_confident := sc.2
    probe_urls := urlList f.url
    quality_label := if height ≠ 0 then toString height ++ "p" else "mp4" }

/-- `_best_progressive_mp4` (lines 368-400). -/
def _best_progressive_mp4 (meta : Meta) : Option VideoPlan :=
  (pickBest progElig progLtB meta.formats).map (mkProgPlan (_duration_sec meta))

/-- `_best_separate_mp4_m4a` (lines 403-466): independent best video-only and
best audio-only scans over the same list, paired; nothing if either side is
missing.  The single Python pass with two accumulators equals two passes. -/
def _best_separate_mp4_m4a (meta : Meta) : Option VideoPlan :=
  let dur := _duration_sec meta
  match pickBest vElig progLtB meta.formats, pickBest aElig audLtB meta.formats with
  | some vf, some af =>
    let sv := _format_size_bytes vf dur
    let sa := _format_size_bytes af dur
    let ts : Option Int × Bool :=
      match sv.1, sa.1 with
      | some a, some b => (some (a + b), sv.2 && sa.2)
      | _, _ => (none, false)
    let height := pyOrInt vf.height 0
    some
      { kind := "separate"
        format_spec := vf.format_id ++ "+" ++ af.format_id
        merge_output_format := some "mp4"
        estimated_size := ts.1
        estimated_confident := ts.2
        probe_urls := urlList vf.url ++ urlList af.url
        quality_label := if height ≠ 0 then toString height ++ "p" else "mp4" }
  | _, _ => none

/-- `_build_video_plan_no_squeeze` (lines 469-491), with the never-confident
`"unknown"` fallback. -/
def _build_video_plan_no_squeeze (meta : Meta) : VideoPlan :=
  match _best_progressive_mp4 meta with
  | some p => p
  | none =>
    match _best_separate_mp4_m4a meta with
    | some p => p
    | none =>
      { kind := "unknown"
        format_spec := "best"
        merge_output_format := none
        estimated_size := none
        estimated_confident := false
        probe_urls := []
        quality_label := "best" }

/- ===== Probe escalation (lines 283-319, 494-518) ===== -/

/-- The per-URL probe loop of lines 508-513 against a probe oracle
(`_probe_url_size_bytes`, lines 283-319, whose network behaviour the oracle
abstracts: `none` for any failure, otherwise the reported total).  Returns all
collected sizes, or nothing as soon as one URL yields no usable positive
total. -/
def probeLoop (probe : String → Option Int) : List String → Option (List Int)
  | [] => some []
  | u :: rest =>
    match probe u with
    | some sz => if 0 < sz then (probeLoop probe rest).map (fun l => sz :: l) else none
    | none => none

/-- `_apply_probe_if_needed` (lines 494-518).  The Python function mutates the
plan dict in place on the successful-probe path (`plan["estimated_size"] =
total; plan["estimated_confident"] = True`) and every `return plan` returns
the argument object itself, so the result is the pair
(returned plan, state of the argument object after the call) — always the
same value, by aliasing. -/
def _apply_probe_if_needed (probe : String → Option Int) (plan : VideoPlan) :
    VideoPlan × VideoPlan :=
  if plan.estimated_confident && plan.estimated_size.isSome then (plan, plan)
  else
    let urls := plan.probe_urls.filter (fun u => startsWithHttp u)
    if urls.isEmpty then (plan, plan)
    else
      match probeLoop probe urls with
      | none => (plan, plan)
      | some sizes =>
        let plan2 := { plan with
          estimated_size := some sizes.sum
          estimated_confident := true }
        (plan2, plan2)

/- ===== Audio fitter (lines 521-544) ===== -/

/-- The failure reasons of `_build_audio_plan_mp3` (the source reports them as
human-readable strings; the spec taxonomy names them `UnknownDurationError`
and `AudioTooLargeError`). -/
inductive AudioFailure where
  | unknownDuration
  | audioTooLarge
  deriving DecidableEq

/-- The fixed descending bitrate ladder of line 531. -/
def audio_candidates : List Int := [192, 160, 128, 112, 96, 80, 64, 48, 32]

/-- First element of the list satisfying the predicate (the `for br in
candidates` loop with an early `return`). -/
def firstFit (P : Int → Bool) : List Int → Option Int
  | [] => none
  | br :: rest => if P br then some br else firstFit P rest

/-- The per-rung fit test of lines 533-534:
`int(dur * (br * 1000 / 8)) + AUDIO_HEADROOM_BYTES <= limit_bytes`
(`br * 1000` is always divisible by 8, so the arithmetic is exact). -/
def audioFitP (dur limit : Int) (br : Int) : Bool :=
  decide (dur * (br * 1000 / 8) + AUDIO_HEADROOM_BYTES ≤ limit)

/-- `_build_audio_plan_mp3` (lines 521-544): `(plan, failure reason)`. -/
def _build_audio_plan_mp3 (meta : Meta) (limit : Int) :
    Option AudioPlan × Option AudioFailure :=
  match _duration_sec meta with
  | none => (none, some AudioFailure.unknownDuration)
  | some dur =>
    match firstFit (audioFitP dur limit) audio_candidates with
    | some br =>
      (some
        { format_spec := "bestaudio/best"
          merge_output_format := none
          mp3_kbps := br
          estimated_size := dur * (br * 1000 / 8)
          estimated_confident := true
          quality_label := "mp3 " ++ toString br ++ "kbps" }, none)
    | none => (none, some AudioFailure.audioTooLarge)

/- ===== Progress tracker (lines 204-257) ===== -/

/-- One `"downloading"` progress dict from yt-dlp, as read by
`_calc_download_progress`: every field the function touches, `Option` where
the dict entry may be missing or non-integer. -/
structure DlSignal where
  downloaded_bytes : Option Int
  total_bytes : Option Int
  total_bytes_estimate : Option Int
  fragment_count : Option Int
  fragment_index : Option Int
  deriving DecidableEq

/-- The clamp-then-monotonise block repeated in all three branches of
`_calc_download_progress` (lines 224-230, 235-241, 248-254):
`if pct >= 100: pct = 99`, then `if pct < prev: pct = prev`. -/
def clampPct (pct prev : Int) : Int :=
  let p1 := if 100 ≤ pct then 99 else pct
  if p1 < prev then prev else p1

/-- `_calc_download_progress(d, state)` (lines 204-257).  The shared per-job
`state["pct"]` (initially 0) is the second argument and the returned `Int`;
the triple is `(percent, downloaded_bytes, total_bytes)`.  The guards mirror
the `isinstance`/sign checks; `int((x * 100) / y)` on the guarded
non-negative operands is floor division. -/
def _calc_download_progress (d : DlSignal) (prev : Int) :
    (Option Int × Option Int × Option Int) × Int :=
  if d.fragment_count.isSome && decide (0 < d.fragment_count.getD 0) &&
      d.fragment_index.isSome then
    let c := d.fragment_count.getD 0
    let i := d.fragment_index.getD 0
    let idx := if i < 0 then 0 else if c < i then c else i
    let pct := clampPct (idx * 100 / c) prev
    ((some pct, none, none), pct)
  else if d.total_bytes.isSome && decide (0 < d.total_bytes.getD 0) &&
      d.downloaded_bytes.isSome && decide (0 ≤ d.downloaded_bytes.getD 0) then
    let t := d.total_bytes.getD 0
    let dl := d.downloaded_bytes.getD 0
    let pct := clampPct (dl * 100 / t) prev
    ((some pct, some dl, some t), pct)
  else if d.total_bytes_estimate.isSome && decide (0 < d.total_bytes_estimate.getD 0) &&
      d.downloaded_bytes.isSome && decide (0 ≤ d.downloaded_bytes.getD 0) then
    let t := d.total_bytes_estimate.getD 0
    let dl := d.downloaded_bytes.getD 0
    let pct := clampPct (dl * 100 / t) prev
    ((some pct, some dl, some t), pct)
  else
    ((none, d.downloaded_bytes, none), prev)

/-- Feed a whole sequence of `"downloading"` signals of one job through the
calculator, threading the shared `state["pct"]`, and collect the percentages
it reports (signals with no computable percentage report none). -/
def runProgress : Int → List DlSignal → List Int
  | _, [] => []
  | prev, d :: rest =>
    let r := _calc_download_progress d prev
    match r.1.1 with
    | some p => p :: runProgress r.2 rest
    | none => runProgress r.2 rest

/- ===== Status reporter (lines 51-52, 77-100) ===== -/

/-- The two shared edit-history tables `last_edited` / `last_text`, keyed by
`f"{chat_id}-{message_id}"`. -/
structure EditState where
  last_edited : List (String × Int)
  last_text : List (String × String)
  deriving DecidableEq

/-- The `f"{chat_id}-{message_id}"` table key of line 78. -/
def editKey (chat_id message_id : Int) : String :=
  toString chat_id ++ "-" ++ toString message_id

/-- What `_safe_edit` did: returned without calling the platform, called it
successfully, or called it and swallowed the failure. -/
inductive EditOutcome where
  | suppressed
  | sent
  | sendFailed
  deriving DecidableEq

/-- `_safe_edit` (lines 77-100).  `now` is the current time, `sendOk` the
platform oracle (the `try` body succeeding or raising).  Both history tables
are updated only after a successful send; a suppressed edit touches
nothing. -/
def _safe_edit (chat_id message_id : Int) (text : String) (force : Bool)
    (now : Int) (sendOk : Bool) (st : EditState) : EditOutcome × EditState :=
  let key := editKey chat_id message_id
  let suppress : Bool :=
    if force then false
    else
      match alookup key st.last_edited with
      | some last =>
        if now - last < EDIT_INTERVAL_MS then true
        else decide (alookup key st.last_text = some text)
      | none => decide (alookup key st.last_text = some text)
  if suppress then (EditOutcome.suppressed, st)
  else if sendOk then
    (EditOutcome.sent,
      { last_edited := aupdate key now st.last_edited
        last_text := aupdate key text st.last_text })
  else (EditOutcome.sendFailed, st)

/- ===== Pending choice store (lines 54, 979-986) and choice callback
(lines 1205-1284) ===== -/

/-- A `pending_requests` entry (lines 1034-1043, 1074-1083, 1103-1112). -/
structure PendingEntry where
  created_at : Int
  user_id : Int
  chat_id : Int
  reply_to_message_id : Int
  url : String
  title : String
  video_plan : Option VideoPlan
  audio_plan : Option AudioPlan
  deriving DecidableEq

/-- `_cleanup_pending` (lines 979-986): drop every entry strictly older than
the TTL.  It is invoked only at the top of `_send_choice_ui` (line 994), i.e.
lazily on each new incoming request. -/
def _cleanup_pending (now : Int) (pending : List (String × PendingEntry)) :
    List (String × PendingEntry) :=
  pending.filter (fun e => !(decide (now - e.2.created_at > PENDING_TTL_MS)))

/-- A job as enqueued by `on_download_choice` (lines 1271-1281); the freshly
generated uuid `job_id` is not part of the model.  `plan` is the video dict
for modes `"video"`/`"doc"` and the audio dict for `"audio"`. -/
structure Job where
  chat_id : Int
  reply_to_message_id : Int
  status_message_id : Int
  url : String
  title : String
  mode : String
  plan : Sum VideoPlan AudioPlan
  deriving DecidableEq

/-- Observable outcome of the `dl|...` callback: the text answered to the
user, or the job handed to the queue. -/
inductive DlOutcome where
  | invalidAction
  | expired
  | notYours
  | unavailable (what : String)
  | enqueued (job : Job)
  deriving DecidableEq

/-- The body of `on_download_choice` after the token is parsed into
`mode`/`rid` (lines 1216-1281): look the pending entry up (no age check
happens here), check ownership, consume the entry, and either answer a
refusal or build the job.  Returns the outcome and the new pending store. -/
def on_download_choice_resolve (mode rid : String) (fromUser : Int)
    (status_message_id : Int) (pending : List (String × PendingEntry)) :
    DlOutcome × List (String × PendingEntry) :=
  match alookup rid pending with
  | none => (DlOutcome.expired, pending)
  | some req =>
    if fromUser ≠ req.user_id then (DlOutcome.notYours, pending)
    else
      let pending2 := aremove rid pending
      if mode = "audio" then
        match req.audio_plan with
        | none => (DlOutcome.unavailable "audio", pending2)
        | some p =>
          (DlOutcome.enqueued
            ⟨req.chat_id, req.reply_to_message_id, status_message_id,
              req.url, req.title, "audio", Sum.inr p⟩, pending2)
      else if mode = "doc" then
        match req.video_plan with
        | none => (DlOutcome.unavailable "video", pending2)
        | some p =>
          (DlOutcome.enqueued
            ⟨req.chat_id, req.reply_to_message_id, status_message_id,
              req.url, req.title, "doc", Sum.inl p⟩, pending2)
      else
        match req.video_plan with
        | none => (DlOutcome.unavailable "video", pending2)
        | some p =>
          (DlOutcome.enqueued
            ⟨req.chat_id, req.reply_to_message_id, status_message_id,
              req.url, req.title, "video", Sum.inl p⟩, pending2)

/-- `on_download_choice` (lines 1205-1284) minus the platform glue: parse the
`dl|mode|rid` token and resolve it.  `status_message_id` is
`call.message.message_id`. -/
def on_download_choice (callData : String) (fromUser : Int)
    (status_message_id : Int) (pending : List (String × PendingEntry)) :
    DlOutcome × List (String × PendingEntry) :=
  match pySplit '|' callData with
  | [_, mode, rid] =>
    on_download_choice_resolve mode rid fromUser status_message_id pending
  | _ => (DlOutcome.invalidAction, pending)

/-- The decision gate's go condition for video/document: a confident,
positive estimated size that fits under the ceiling (lines 1018-1020). -/
def fitsCeiling (p : VideoPlan) : Prop :=
  p.estimated_confident = true ∧
    ∃ s, p.estimated_size = some s ∧ 0 < s ∧ s ≤ MAX_SEND_BYTES

/- ===== Decision gate (lines 1016-1134) ===== -/

/-- What `_send_choice_ui` showed the user after the plans were resolved, and
the pending entry it stored (if any). -/
structure ChoiceUI where
  offer_video : Bool
  offer_doc : Bool
  offer_audio : Bool
  entry : Option PendingEntry
  deriving DecidableEq

/-- The decision part of `_send_choice_ui` (lines 1016-1134), taking the
already probed video plan and the audio fitter result.  Mirrors the three
branches: confidently-too-big, not-provably-fitting, and fitting; the two
refusal branches store an entry with `video_plan = None` and only when audio
is available. -/
def _send_choice_ui_decision (now : Int) (user_id chat_id message_id : Int)
    (url title : String) (video_plan : VideoPlan) (audio_plan : Option AudioPlan) :
    ChoiceUI :=
  let video_size := video_plan.estimated_size
  let video_conf := video_plan.estimated_confident &&
    video_size.isSome && decide (0 < video_size.getD 0)
  let video_ok := video_conf && video_size.isSome &&
    decide (video_size.getD 0 ≤ MAX_SEND_BYTES)
  let audioEntry : Option PendingEntry :=
    match audio_plan with
    | some ap => some ⟨now, user_id, chat_id, message_id, url, title, none, some ap⟩
    | none => none
  if video_conf && video_size.isSome && decide (MAX_SEND_BYTES < video_size.getD 0) then
    { offer_video := false, offer_doc := false,
      offer_audio := audio_plan.isSome, entry := audioEntry }
  else if !video_ok then
    { offer_video := false, offer_doc := false,
      offer_audio := audio_plan.isSome, entry := audioEntry }
  else
    { offer_video := true, offer_doc := true,
      offer_audio := audio_plan.isSome,
      entry := some ⟨now, user_id, chat_id, message_id, url, title,
        some video_plan, audio_plan⟩ }

/- ===== Cancel callback (lines 58-59, 1170-1199) ===== -/

/-- An `active_jobs` entry (lines 1256-1260). -/
structure ActiveJob where
  user_id : Int
  chat_id : Int
  status_message_id : Int
  deriving DecidableEq

/-- The text answered to the cancel callback. -/
inductive CancelOutcome where
  | invalidAction
  | nothingToCancel
  | notYours
  | cancelled
  deriving DecidableEq

/-- `on_cancel` (lines 1170-1199).  `events` is the `cancel_events` table with
`true` for a set flag.  Returns the answer, the new flag table, and the
`(chat_id, message_id)` of the status message it deleted, if any (both ids
are integers in the model, so the `isinstance` guard of line 1194 always
passes). -/
def on_cancel (callData : String) (fromUser : Int)
    (active : List (String × ActiveJob)) (events : List (String × Bool)) :
    CancelOutcome × List (String × Bool) × Option (Int × Int) :=
  match pySplit '|' callData with
  | [_, job_id] =>
    match alookup job_id active with
    | none => (CancelOutcome.nothingToCancel, events, none)
    | some info =>
      if fromUser ≠ info.user_id then (CancelOutcome.notYours, events, none)
      else
        let events2 :=
          match alookup job_id events with
          | some _ => aupdate job_id true events
          | none => events
        (CancelOutcome.cancelled, events2, some (info.chat_id, info.status_message_id))
  | _ => (CancelOutcome.invalidAction, events, none)

/- ===== Worker job execution skeleton (lines 730-923) ===== -/

/-- Why a job aborted with an exception inside the `try` of
`_download_and_send` (raised there or propagated out of the library call). -/
inductive JobAbort where
  | downloadError (e : String)
  | fileNotFound
  | sizeExceeded (n : Int)
  | sendError (e : String)
  deriving DecidableEq

/-- The effect outcomes one run of `_download_and_send` observes: the
cancellation flag at each of its checkpoints, whether the library call raised
(and with what message), whether an output file was found, its size, and
whether the upload raised. -/
structure JobEnv where
  cancelled_at_start : Bool
  download_error : Option String
  cancelled_after_download : Bool
  file_found : Bool
  final_size : Int
  send_error : Option String
  cancelled_at_handler : Bool
  deriving DecidableEq

/-- What one run of `_download_and_send` did to the outside world. -/
structure JobActions where
  status_deleted : Bool
  error_shown : Option JobAbort
  delivered : Bool
  cleanup_ran : Bool
  registry_released : Bool
  deriving DecidableEq

/-- The `try` body of `_download_and_send` (lines 811-897):
`(abort, status deleted inside try, delivered)`.  The early cancellation
returns (lines 812-814, 827-829) delete the status message and end the job
without an exception; the file-not-found check (line 837), the final hard
size check (lines 840-844) and a failed upload raise. -/
def jobTryPhase (env : JobEnv) : Option JobAbort × Bool × Bool :=
  if env.cancelled_at_start then (none, true, false)
  else
    match env.download_error with
    | some e => (some (JobAbort.downloadError e), false, false)
    | none =>
      if env.cancelled_after_download then (none, true, false)
      else if !env.file_found then (some JobAbort.fileNotFound, false, false)
      else if MAX_SEND_BYTES < env.final_size then
        (some (JobAbort.sizeExceeded env.final_size), false, false)
      else
        match env.send_error with
        | some e => (some (JobAbort.sendError e), false, false)
        | none => (none, true, true)

/-- The exception, if any, with which a run over `env` aborts. -/
def jobAbortOf (env : JobEnv) : Option JobAbort := (jobTryPhase env).1

/-- `_download_and_send` (lines 730-923) at the level of its observable
actions: the `except` block (lines 899-903) checks the cancellation flag and
either deletes the status message or rewrites it with the error line
(`f"{title}\n\nStatus: X {str(e)}"`, carrying the failure reason); the
`finally` block (lines 905-923) always removes the temp files and releases
the `cancel_events`/`active_jobs` entries. -/
def _download_and_send (env : JobEnv) : JobActions :=
  match jobTryPhase env with
  | (some ab, _, _) =>
    if env.cancelled_at_handler then
      { status_deleted := true, error_shown := none, delivered := false,
        cleanup_ran := true, registry_released := true }
    else
      { status_deleted := false, error_shown := some ab, delivered := false,
        cleanup_ran := true, registry_released := true }
  | (none, del, deliv) =>
    { status_deleted := del, error_shown := none, delivered := deliv,
      cleanup_ran := true, registry_released := true }

/- ===== Helper lemmas ===== -/

/-- The clamp-then-monotonise block keeps the state in `[prev, 99]`
whenever the previous state was in `[0, 99]`. -/
theorem clampPct_spec (pct prev : Int) (h0 : 0 ≤ prev) (h99 : prev ≤ 99) :
    prev ≤ clampPct pct prev ∧ clampPct pct prev ≤ 99 := by
  simp only [clampPct]
  split_ifs <;> omega

/-- One call of the calculator: the state never decreases, stays at most 99,
equals the reported percentage when one is reported, and is untouched when
none is. -/
theorem calc_step_spec (d : DlSignal) (prev : Int) (h0 : 0 ≤ prev) (h99 : prev ≤ 99) :
    prev ≤ (_calc_download_progress d prev).2 ∧
    (_calc_download_progress d prev).2 ≤ 99 ∧
    ((_calc_download_progress d prev).1.1 = none ∨
      (_calc_download_progress d prev).1.1 = some (_calc_download_progress d prev).2) ∧
    ((_calc_download_progress d prev).1.1 = none →
      (_calc_download_progress d prev).2 = prev) := by
  simp only [_calc_download_progress]
  split_ifs with h1 h2 h3 <;>
    refine ⟨?_, ?_, ?_, ?_⟩ <;>
    first
      | exact (clampPct_spec _ prev h0 h99).1
      | exact (clampPct_spec _ prev h0 h99).2
      | exact h99
      | exact le_refl _
      | simp

/-- The sequence of reported percentages, starting from any state in
`[0, 99]`, is non-decreasing and stays in `[state, 99]`. -/
theorem runProgress_spec (sigs : List DlSignal) :
    ∀ prev : Int, 0 ≤ prev → prev ≤ 99 →
    List.Pairwise (fun a b => a ≤ b) (runProgress prev sigs) ∧
    ∀ p ∈ runProgress prev sigs, prev ≤ p ∧ p ≤ 99 := by
  induction sigs with
  | nil => intro prev h0 h99; simp [runProgress]
  | cons d rest ih =>
    intro prev h0 h99
    obtain ⟨hmono, h99', hsome, hnone⟩ := calc_step_spec d prev h0 h99
    have h0' : 0 ≤ (_calc_download_progress d prev).2 := le_trans h0 hmono
    obtain ⟨ihp, ihm⟩ := ih (_calc_download_progress d prev).2 h0' h99'
    rcases hsome with hc | hc
    · have hst := hnone hc
      rw [hst] at ihp ihm
      simpa [runProgress, hc, hst] using ⟨ihp, ihm⟩
    · constructor
      · simp only [runProgress, hc]
        exact List.Pairwise.cons (fun p hp => (ihm p hp).1) ihp
      · intro p hp
        simp only [runProgress, hc, List.mem_cons] at hp
        rcases hp with rfl | hp
        · exact ⟨hmono, h99'⟩
        · exact ⟨le_trans hmono (ihm p hp).1, (ihm p hp).2⟩

/- ===== C2 ===== -/

/-- C2: for every sequence of `"downloading"` progress signals
(fragment-indexed or byte-indexed, in any mix, regressions included) fed to
`_calc_download_progress` for one job through the shared per-job state
(initially 0), the reported percentages are monotonically non-decreasing and
stay within `[0, 99]` — in particular never 100, which only the separate
`"finished"` handler writes. -/
theorem progress_monotone_bounded (sigs : List DlSignal) :
    List.Pairwise (fun a b => a ≤ b) (runProgress 0 sigs) ∧
    ∀ p ∈ runProgress 0 sigs, 0 ≤ p ∧ p ≤ 99 :=
  runProgress_spec sigs 0 (by decide) (by decide)

/-- Witness for C2 at a concrete signal sequence whose fragment index
regresses (5/10, then 3/10, then 60 of 100 bytes): the reported sequence is
`[50, 50, 60]`, non-decreasing and inside `[0, 99]`. -/
theorem progress_monotone_bounded_witness :
    runProgress 0
      [⟨none, none, none, some 10, some 5⟩,
        ⟨none, none, none, some 10, some 3⟩,
        ⟨some 60, some 100, none, none, none⟩] = [50, 50, 60] ∧
    List.Pairwise (fun a b => a ≤ b)
      (runProgress 0
        [⟨none, none, none, some 10, some 5⟩,
          ⟨none, none, none, some 10, some 3⟩,
          ⟨some 60, some 100, none, none, none⟩]) :=
  ⟨by decide,
    (progress_monotone_bounded
      [⟨none, none, none, some 10, some 5⟩,
        ⟨none, none, none, some 10, some 3⟩,
        ⟨some 60, some 100, none, none, none⟩]).1⟩

/- ===== C9 ===== -/

/-- C9: whenever a job's execution aborts with an exception at any stage, the
worker checks the cancellation flag at the abort handler: if it is set the
status message is deleted (cancelled outcome, no error text); otherwise the
status message is rewritten with an error line carrying the failure reason.
In both cases the `finally` cleanup (temp-file removal and registry release)
still runs. -/
theorem abort_cancel_precedence (env : JobEnv) (ab : JobAbort)
    (h : jobAbortOf env = some ab) :
    (_download_and_send env).cleanup_ran = true ∧
    (_download_and_send env).registry_released = true ∧
    (env.cancelled_at_handler = true →
      (_download_and_send env).status_deleted = true ∧
      (_download_and_send env).error_shown = none ∧
      (_download_and_send env).delivered = false) ∧
    (env.cancelled_at_handler = false →
      (_download_and_send env).error_shown = some ab ∧
      (_download_and_send env).status_deleted = false ∧
      (_download_and_send env).delivered = false) := by
  unfold jobAbortOf at h
  unfold _download_and_send
  rcases htp : jobTryPhase env with ⟨oab, del, deliv⟩
  rw [htp] at h
  simp only [] at h
  subst h
  cases hc : env.cancelled_at_handler <;> simp

/-- Witness for C9: a job whose library call raises `"boom"` with the
cancellation flag unset gets the error line with that reason, and cleanup
runs. -/
theorem abort_cancel_precedence_witness :
    jobAbortOf ⟨false, some "boom", false, true, 0, none, false⟩ =
      some (JobAbort.downloadError "boom") ∧
    (_download_and_send ⟨false, some "boom", false, true, 0, none, false⟩).error_shown =
      some (JobAbort.downloadError "boom") ∧
    (_download_and_send ⟨false, some "boom", false, true, 0, none, false⟩).cleanup_ran =
      true :=
  ⟨by decide,
    ((abort_cancel_precedence ⟨false, some "boom", false, true, 0, none, false⟩
      (JobAbort.downloadError "boom") (by decide)).2.2.2 rfl).1,
    (abort_cancel_precedence ⟨false, some "boom", false, true, 0, none, false⟩
      (JobAbort.downloadError "boom") (by decide)).1⟩

/- ===== C10 ===== -/

/-- C10: a cancel callback from a user other than the owner of the targeted
active job leaves the cancellation-flag table unchanged and deletes no status
message (the callback is merely answered with a rejection); a cancel callback
naming a job id with no active-job entry likewise changes no flag. -/
theorem cancel_ownership_guard (callData : String) (fromUser : Int)
    (active : List (String × ActiveJob)) (events : List (String × Bool))
    (jid : String) (info : ActiveJob) :
    (pySplit '|' callData = ["cnl", jid] →
      alookup jid active = some info →
      fromUser ≠ info.user_id →
      on_cancel callData fromUser active events =
        (CancelOutcome.notYours, events, none)) ∧
    (pySplit '|' callData = ["cnl", jid] →
      alookup jid active = none →
      on_cancel callData fromUser active events =
        (CancelOutcome.nothingToCancel, events, none)) := by
  constructor
  · intro hs hl hne
    unfold on_cancel
    rw [hs]
    simp [hl, hne]
  · intro hs hl
    unfold on_cancel
    rw [hs]
    simp [hl]

/-- Witness for C10: user 5 tries to cancel job `"j1"` owned by user 9 — the
flag table is untouched and nothing is deleted. -/
theorem cancel_ownership_guard_witness :
    on_cancel "cnl|j1" 5 [("j1", ⟨9, 1, 2⟩)] [("j1", false)] =
      (CancelOutcome.notYours, [("j1", false)], none) :=
  (cancel_ownership_guard "cnl|j1" 5 [("j1", ⟨9, 1, 2⟩)] [("j1", false)] "j1"
    ⟨9, 1, 2⟩).1 (by decide) (by decide) (by decide)

/- ===== C8 ===== -/

/-- C8: a non-forced edit request for a `(chat, message)` pair is suppressed
(nothing sent, both history tables untouched) exactly when the requested text
equals the last successfully sent text for that pair or less than
`EDIT_INTERVAL` has elapsed since the last accepted edit; a forced edit is
always attempted regardless of interval or text equality. -/
theorem safe_edit_throttle_spec (chat_id message_id : Int) (text : String)
    (force : Bool) (now : Int) (sendOk : Bool) (st : EditState) :
    (force = false →
      ((_safe_edit chat_id message_id text false now sendOk st).1 =
          EditOutcome.suppressed ↔
        ((∃ last, alookup (editKey chat_id message_id) st.last_edited = some last ∧
            now - last < EDIT_INTERVAL_MS) ∨
          alookup (editKey chat_id message_id) st.last_text = some text))) ∧
    ((_safe_edit chat_id message_id text force now sendOk st).1 =
        EditOutcome.suppressed →
      (_safe_edit chat_id message_id text force now sendOk st).2 = st) ∧
    (force = true →
      (_safe_edit chat_id message_id text true now sendOk st).1 ≠
        EditOutcome.suppressed) := by
  refine ⟨?_, ?_, ?_⟩
  · intro _
    simp only [_safe_edit]
    cases hle : alookup (editKey chat_id message_id) st.last_edited with
    | none =>
      by_cases ht : alookup (editKey chat_id message_id) st.last_text = some text <;>
        cases sendOk <;> simp [ht]
    | some last =>
      by_cases hi : now - last < EDIT_INTERVAL_MS
      · simp [hi]
      · by_cases ht : alookup (editKey chat_id message_id) st.last_text = some text <;>
          cases sendOk <;> simp [hi, ht]
  · intro h
    simp only [_safe_edit] at h ⊢
    split_ifs at h ⊢ <;> simp_all
  · intro _
    simp only [_safe_edit]
    cases sendOk <;> simp

/-- Witness for C8: with a last accepted edit 1000 ms ago (interval 1800 ms)
a non-forced edit with fresh text is suppressed, while a forced one is not. -/
theorem safe_edit_throttle_spec_witness :
    (_safe_edit 1 2 "new" false 2000 true
        ⟨[("1-2", 1000)], [("1-2", "old")]⟩).1 = EditOutcome.suppressed ∧
    (_safe_edit 1 2 "new" true 2000 true
        ⟨[("1-2", 1000)], [("1-2", "old")]⟩).1 ≠ EditOutcome.suppressed :=
  ⟨((safe_edit_throttle_spec 1 2 "new" false 2000 true
      ⟨[("1-2", 1000)], [("1-2", "old")]⟩).1 rfl).mpr
      (Or.inl ⟨1000, by decide, by decide⟩),
    (safe_edit_throttle_spec 1 2 "new" true 2000 true
      ⟨[("1-2", 1000)], [("1-2", "old")]⟩).2.2 rfl⟩

/- ===== Probe-loop lemmas ===== -/

/-- If every filtered URL probes to a usable positive total, the loop collects
exactly those totals, in order. -/
theorem probeLoop_all (probe : String → Option Int) :
    ∀ us : List String, (∀ u ∈ us, 0 < (probe u).getD 0) →
    probeLoop probe us = some (us.map (fun u => (probe u).getD 0)) := by
  intro us
  induction us with
  | nil => intro _; rfl
  | cons u rest ih =>
    intro h
    have hu := h u (by simp)
    cases hp : probe u with
    | none => rw [hp] at hu; simp at hu
    | some sz =>
      rw [hp] at hu
      simp only [Option.getD] at hu
      have hrest := ih (fun v hv => h v (by simp [hv]))
      simp [probeLoop, hp, hu, hrest]

/-- If any filtered URL fails to probe to a usable positive total, the loop
reports failure. -/
theorem probeLoop_fail (probe : String → Option Int) :
    ∀ us : List String, (∃ u ∈ us, ¬ 0 < (probe u).getD 0) →
    probeLoop probe us = none := by
  intro us
  induction us with
  | nil => rintro ⟨u, hu, _⟩; simp at hu
  | cons u rest ih =>
    rintro ⟨v, hv, hnv⟩
    rcases List.mem_cons.mp hv with rfl | hv2
    · cases hp : probe v with
      | none => simp [probeLoop, hp]
      | some sz =>
        rw [hp] at hnv
        simp only [Option.getD] at hnv
        simp [probeLoop, hp, hnv]
    · cases hp : probe u with
      | none => simp [probeLoop, hp]
      | some sz =>
        by_cases hz : 0 < sz
        · simp [probeLoop, hp, hz, ih ⟨v, hv2, hnv⟩]
        · simp [probeLoop, hp, hz]

/- ===== C6 ===== -/

/-- C6: for a plan whose size is not already confident, if the filtered http
probe URLs are non-empty and every one yields a usable positive total, the
returned plan carries the sum of the probed totals with confidence set;
if the plan has no http probe URLs, or any single probe fails, the returned
plan is exactly the input (still unconfident); a plan already confident with
an integer size is returned as-is. -/
theorem probe_escalation_spec (probe : String → Option Int) (plan : VideoPlan) :
    (plan.estimated_confident = true ∧ plan.estimated_size.isSome = true →
      (_apply_probe_if_needed probe plan).1 = plan) ∧
    (plan.probe_urls.filter (fun u => startsWithHttp u) = [] →
      (_apply_probe_if_needed probe plan).1 = plan) ∧
    ((∃ u ∈ plan.probe_urls.filter (fun u => startsWithHttp u),
        ¬ 0 < (probe u).getD 0) →
      (_apply_probe_if_needed probe plan).1 = plan) ∧
    (¬(plan.estimated_confident = true ∧ plan.estimated_size.isSome = true) →
      plan.probe_urls.filter (fun u => startsWithHttp u) ≠ [] →
      (∀ u ∈ plan.probe_urls.filter (fun u => startsWithHttp u),
        0 < (probe u).getD 0) →
      (_apply_probe_if_needed probe plan).1.estimated_size =
        some ((plan.probe_urls.filter (fun u => startsWithHttp u)).map
          (fun u => (probe u).getD 0)).sum ∧
      (_apply_probe_if_needed probe plan).1.estimated_confident = true) := by
  refine ⟨?_, ?_, ?_, ?_⟩
  · rintro ⟨hc, hs⟩
    simp [_apply_probe_if_needed, hc, hs]
  · intro hurls
    by_cases hcs : (plan.estimated_confident && plan.estimated_size.isSome) = true
    · simp [_apply_probe_if_needed, hcs]
    · simp [_apply_probe_if_needed, hcs, hurls]
  · rintro ⟨u, hu, hnu⟩
    have hfail := probeLoop_fail probe _ ⟨u, hu, hnu⟩
    by_cases hcs : (plan.estimated_confident && plan.estimated_size.isSome) = true
    · simp [_apply_probe_if_needed, hcs]
    · rcases hl : plan.probe_urls.filter (fun u => startsWithHttp u) with _ | ⟨a, t⟩
      · simp [_apply_probe_if_needed, hcs, hl]
      · rw [hl] at hfail
        simp [_apply_probe_if_needed, hcs, hl, hfail]
  · intro hcs hne hall
    have hloop := probeLoop_all probe _ hall
    have hcs' : ¬((plan.estimated_confident && plan.estimated_size.isSome) = true) := by
      simpa [Bool.and_eq_true] using hcs
    rcases hl : plan.probe_urls.filter (fun u => startsWithHttp u) with _ | ⟨a, t⟩
    · exact absurd hl hne
    · rw [hl] at hloop
      simp [_apply_probe_if_needed, hcs', hl, hloop]

/-- Witness for C6: an unconfident plan with two http URLs probing to 1000
and 2000 comes back confident with size 3000. -/
theorem probe_escalation_spec_witness :
    (_apply_probe_if_needed
        (fun u => if u = "http://a" then some 1000 else some 2000)
        ⟨"separate", "1+2", some "mp4", none, false, ["http://a", "http://b"],
          "720p"⟩).1.estimated_size = some 3000 ∧
    (_apply_probe_if_needed
        (fun u => if u = "http://a" then some 1000 else some 2000)
        ⟨"separate", "1+2", some "mp4", none, false, ["http://a", "http://b"],
          "720p"⟩).1.estimated_confident = true := by
  have h := (probe_escalation_spec
    (fun u => if u = "http://a" then some 1000 else some 2000)
    ⟨"separate", "1+2", some "mp4", none, false, ["http://a", "http://b"],
      "720p"⟩).2.2.2 (by decide) (by decide) (by decide)
  exact ⟨by rw [h.1]; decide, h.2⟩

/- ===== C7 ===== -/

/-- C7 counterexample: probing an unconfident plan with one http URL that
probes to 1000 changes the fields of the argument object itself — the source
writes `plan["estimated_size"]`/`plan["estimated_confident"]` through the
caller's reference instead of building a new candidate, so the original
candidate's estimated-size and confidence fields do not survive probing. -/
theorem probe_immutability_counterexample :
    (⟨"unknown", "best", none, none, false, ["http://a"], "best"⟩ :
        VideoPlan).estimated_confident = false ∧
    (⟨"unknown", "best", none, none, false, ["http://a"], "best"⟩ :
        VideoPlan).estimated_size = none ∧
    ((_apply_probe_if_needed (fun _ => some 1000)
        ⟨"unknown", "best", none, none, false, ["http://a"], "best"⟩).2).estimated_confident =
      true ∧
    ((_apply_probe_if_needed (fun _ => some 1000)
        ⟨"unknown", "best", none, none, false, ["http://a"], "best"⟩).2).estimated_size =
      some 1000 := by decide

/-- C7 (amended): the probing step never builds a fresh candidate — it
returns the very object it was handed (aliasing), and on the
successful-probe path that object's estimated-size and confidence fields
have been overwritten in place with the probed total and `true`. -/
theorem probe_mutates_in_place (probe : String → Option Int) (plan : VideoPlan) :
    (_apply_probe_if_needed probe plan).1 = (_apply_probe_if_needed probe plan).2 ∧
    (∀ sizes,
      probeLoop probe (plan.probe_urls.filter (fun u => startsWithHttp u)) =
        some sizes →
      ¬(plan.estimated_confident = true ∧ plan.estimated_size.isSome = true) →
      plan.probe_urls.filter (fun u => startsWithHttp u) ≠ [] →
      (_apply_probe_if_needed probe plan).2 =
        { plan with estimated_size := some sizes.sum,
                    estimated_confident := true }) := by
  constructor
  · simp only [_apply_probe_if_needed]
    split_ifs with h1 h2
    · rfl
    · rfl
    · rcases hp : probeLoop probe (plan.probe_urls.filter (fun u => startsWithHttp u))
        with _ | s <;> simp [hp]
  · intro sizes hp hcs hne
    have hcs' : ¬((plan.estimated_confident && plan.estimated_size.isSome) = true) := by
      simpa [Bool.and_eq_true] using hcs
    rcases hl : plan.probe_urls.filter (fun u => startsWithHttp u) with _ | ⟨a, t⟩
    · exact absurd hl hne
    · rw [hl] at hp
      simp [_apply_probe_if_needed, hcs', hl, hp]

/-- Witness for C7 (amended): at the concrete probed plan of the
counterexample, the returned object and the mutated argument agree and carry
the in-place update. -/
theorem probe_mutates_in_place_witness :
    (_apply_probe_if_needed (fun _ => some 1000)
        ⟨"unknown", "best", none, none, false, ["http://a"], "best"⟩).1 =
      (_apply_probe_if_needed (fun _ => some 1000)
        ⟨"unknown", "best", none, none, false, ["http://a"], "best"⟩).2 ∧
    (_apply_probe_if_needed (fun _ => some 1000)
        ⟨"unknown", "best", none, none, false, ["http://a"], "best"⟩).2 =
      ⟨"unknown", "best", none, some 1000, true, ["http://a"], "best"⟩ :=
  ⟨(probe_mutates_in_place (fun _ => some 1000)
      ⟨"unknown", "best", none, none, false, ["http://a"], "best"⟩).1,
    (probe_mutates_in_place (fun _ => some 1000)
      ⟨"unknown", "best", none, none, false, ["http://a"], "best"⟩).2 [1000]
      (by decide) (by decide) (by decide)⟩

/- ===== C5 ===== -/

/-- Anything found in a filtered association list passed the filter. -/
theorem alookup_filter {α : Type} (p : String × α → Bool) (k : String) :
    ∀ l : List (String × α), ∀ v, alookup k (l.filter p) = some v →
      p (k, v) = true := by
  intro l
  induction l with
  | nil => intro v h; simp [alookup] at h
  | cons a rest ih =>
    intro v h
    rcases a with ⟨k2, v2⟩
    rw [List.filter_cons] at h
    by_cases hp : p (k2, v2) = true
    · rw [if_pos hp] at h
      by_cases hk : k = k2
      · subst hk
        simp [alookup] at h
        exact h ▸ hp
      · simp only [alookup, if_neg hk] at h
        exact ih v h
    · rw [if_neg hp] at h
      exact ih v h

/-- C5 counterexample: a pending entry created at time 0 is, at time 601000
(601 s, beyond the 600 s TTL), selectable as if fresh: with no sweep having
run since it crossed the TTL, the selection callback against its id consumes
the entry and enqueues a job instead of yielding the expired outcome —
`on_download_choice` performs no age check of its own. -/
theorem pending_expiry_counterexample :
    (601000 : Int) - 0 > PENDING_TTL_MS ∧
    on_download_choice "dl|audio|r1" 7 42
        [("r1", ⟨0, 7, 1, 2, "u", "t", none,
          some ⟨"bestaudio/best", none, 128, 1000, true, "mp3 128kbps"⟩⟩)] =
      (DlOutcome.enqueued ⟨1, 2, 42, "u", "t", "audio",
        Sum.inr ⟨"bestaudio/best", none, 128, 1000, true, "mp3 128kbps"⟩⟩, []) := by
  decide

/-- C5 (amended): an over-TTL pending entry becomes unusable only once a
sweep has run: `_cleanup_pending` (invoked lazily, on each new incoming
request) removes every entry strictly older than the TTL, and a selection
callback against an id absent from the store yields the expired outcome with
the store unchanged and no job enqueued.  An over-TTL entry that no sweep
has yet dropped is still usable. -/
theorem pending_expiry_after_sweep (now : Int)
    (pending : List (String × PendingEntry)) (rid : String) (callData : String)
    (fromUser : Int) (mid : Int) :
    (∀ e, alookup rid (_cleanup_pending now pending) = some e →
      ¬(now - e.created_at > PENDING_TTL_MS)) ∧
    (alookup rid pending = none →
      ∀ mode, pySplit '|' callData = ["dl", mode, rid] →
      on_download_choice callData fromUser mid pending =
        (DlOutcome.expired, pending)) := by
  constructor
  · intro e he
    simp only [_cleanup_pending] at he
    have hp := alookup_filter
      (fun pr => !(decide (now - pr.2.created_at > PENDING_TTL_MS))) rid pending e he
    simp only [Bool.not_eq_true', decide_eq_false_iff_not] at hp
    exact hp
  · intro hl mode hs
    unfold on_download_choice
    rw [hs]
    simp [on_download_choice_resolve, hl]

/-- Witness for C5 (amended): after sweeping the store of the counterexample
at time 601000, the over-TTL entry is gone and the same selection yields the
expired outcome. -/
theorem pending_expiry_after_sweep_witness :
    on_download_choice "dl|audio|r1" 7 42
        (_cleanup_pending 601000
          [("r1", ⟨0, 7, 1, 2, "u", "t", none,
            some ⟨"bestaudio/best", none, 128, 1000, true, "mp3 128kbps"⟩⟩)]) =
      (DlOutcome.expired,
        _cleanup_pending 601000
          [("r1", ⟨0, 7, 1, 2, "u", "t", none,
            some ⟨"bestaudio/best", none, 128, 1000, true, "mp3 128kbps"⟩⟩)]) :=
  (pending_expiry_after_sweep 601000
    (_cleanup_pending 601000
      [("r1", ⟨0, 7, 1, 2, "u", "t", none,
        some ⟨"bestaudio/best", none, 128, 1000, true, "mp3 128kbps"⟩⟩)])
    "r1" "dl|audio|r1" 7 42).2 (by decide) "audio" (by decide)

/- ===== First-fit lemmas for the bitrate ladder ===== -/

/-- On a strictly descending list, the first element satisfying the predicate
satisfies it, belongs to the list, and is at least every satisfying
element. -/
theorem firstFit_mem_max (P : Int → Bool) :
    ∀ l : List Int, l.Pairwise (fun a b => b < a) → ∀ x, firstFit P l = some x →
      P x = true ∧ x ∈ l ∧ ∀ y ∈ l, P y = true → y ≤ x := by
  intro l
  induction l with
  | nil => intro _ x h; simp [firstFit] at h
  | cons a rest ih =>
    intro hp x h
    by_cases hPa : P a = true
    · simp only [firstFit, hPa, if_true, Option.some.injEq] at h
      subst h
      refine ⟨hPa, by simp, ?_⟩
      intro y hy _
      rcases List.mem_cons.mp hy with rfl | hy2
      · exact le_refl _
      · exact le_of_lt ((List.pairwise_cons.mp hp).1 y hy2)
    · simp only [firstFit, hPa, if_false] at h
      obtain ⟨h1, h2, h3⟩ := ih (List.pairwise_cons.mp hp).2 x h
      refine ⟨h1, by simp [h2], ?_⟩
      intro y hy hPy
      rcases List.mem_cons.mp hy with rfl | hy2
      · exact absurd hPy hPa
      · exact h3 y hy2 hPy

/-- If the first-fit scan finds nothing, no element satisfies the
predicate. -/
theorem firstFit_none (P : Int → Bool) :
    ∀ l : List Int, firstFit P l = none → ∀ y ∈ l, ¬ P y = true := by
  intro l
  induction l with
  | nil => intro _ y hy; simp at hy
  | cons a rest ih =>
    intro h y hy
    by_cases hPa : P a = true
    · simp [firstFit, hPa] at h
    · simp only [firstFit, hPa, if_false] at h
      rcases List.mem_cons.mp hy with rfl | hy2
      · exact hPa
      · exact ih h y hy2

/- ===== C3 ===== -/

/-- C3: with a known positive duration `d` and ceiling `limit`, the audio
fitter returns the plan whose bitrate is the highest ladder value `br` with
`d * (br * 1000 / 8) + 1500000 ≤ limit` (the estimate is exactly that
product, confidence is always true, and no failure is reported); if no rung
fits, no plan is produced and `AudioTooLargeError` is reported; with an
unknown duration, no plan and `UnknownDurationError`.  The ladder is never
left: a returned bitrate is always one of its rungs. -/
theorem audio_fitter_spec (meta : Meta) (limit : Int) :
    (∀ d, _duration_sec meta = some d →
      (∀ ap, (_build_audio_plan_mp3 meta limit).1 = some ap →
        ap.mp3_kbps ∈ audio_candidates ∧
        d * (ap.mp3_kbps * 1000 / 8) + AUDIO_HEADROOM_BYTES ≤ limit ∧
        (∀ br ∈ audio_candidates,
          d * (br * 1000 / 8) + AUDIO_HEADROOM_BYTES ≤ limit →
          br ≤ ap.mp3_kbps) ∧
        ap.estimated_size = d * (ap.mp3_kbps * 1000 / 8) ∧
        ap.estimated_confident = true ∧
        (_build_audio_plan_mp3 meta limit).2 = none) ∧
      ((_build_audio_plan_mp3 meta limit).1 = none →
        (_build_audio_plan_mp3 meta limit).2 = some AudioFailure.audioTooLarge ∧
        ∀ br ∈ audio_candidates,
          ¬(d * (br * 1000 / 8) + AUDIO_HEADROOM_BYTES ≤ limit))) ∧
    (_duration_sec meta = none →
      _build_audio_plan_mp3 meta limit = (none, some AudioFailure.unknownDuration)) := by
  constructor
  · intro d hd
    have hlad : audio_candidates.Pairwise (fun a b => b < a) := by decide
    constructor
    · intro ap hap
      simp only [_build_audio_plan_mp3, hd] at hap ⊢
      cases hff : firstFit (audioFitP d limit) audio_candidates with
      | none =>
        rw [hff] at hap
        dsimp only at hap
        exact Option.noConfusion hap
      | some br =>
        rw [hff] at hap
        dsimp only at hap ⊢
        simp only [Option.some.injEq] at hap
        obtain ⟨hP, hmem, hmax⟩ := firstFit_mem_max _ audio_candidates hlad br hff
        simp only [audioFitP, decide_eq_true_eq] at hP hmax
        subst hap
        exact ⟨hmem, hP, hmax, rfl, rfl, rfl⟩
    · intro hnone
      simp only [_build_audio_plan_mp3, hd] at hnone ⊢
      cases hff : firstFit (audioFitP d limit) audio_candidates with
      | none =>
        have := firstFit_none _ audio_candidates hff
        simp only [audioFitP, decide_eq_true_eq] at this
        exact ⟨rfl, this⟩
      | some br =>
        rw [hff] at hnone
        dsimp only at hnone
        exact Option.noConfusion hnone
  · intro hd
    simp [_build_audio_plan_mp3, hd]

/-- Witness for C3: duration 600 s and the default 50 MB ceiling select
192 kbps (estimate 14400000 bytes plus headroom fits), exactly the spec's
worked example. -/
theorem audio_fitter_spec_witness :
    (_build_audio_plan_mp3 ⟨some 600, []⟩ 50000000).1 =
      some ⟨"bestaudio/best", none, 192, 14400000, true, "mp3 192kbps"⟩ ∧
    (192 : Int) ∈ audio_candidates ∧
    (600 : Int) * (192 * 1000 / 8) + AUDIO_HEADROOM_BYTES ≤ 50000000 :=
  ⟨by decide,
    ((audio_fitter_spec ⟨some 600, []⟩ 50000000).1 600 (by decide)).1
      ⟨"bestaudio/best", none, 192, 14400000, true, "mp3 192kbps"⟩ (by decide) |>.1,
    ((audio_fitter_spec ⟨some 600, []⟩ 50000000).1 600 (by decide)).1
      ⟨"bestaudio/best", none, 192, 14400000, true, "mp3 192kbps"⟩ (by decide) |>.2.1⟩

/- ===== Lexicographic-key lemmas ===== -/

/-- If `y` does not beat `x` and `x` is beaten by `z`, then `y` is beaten by
`z` (the keys are linearly ordered). -/
theorem kltB_chain (x y z : Int × Int × Int)
    (h1 : kltB x y = false) (h2 : kltB x z = true) : kltB y z = true := by
  obtain ⟨x1, x2, x3⟩ := x
  obtain ⟨y1, y2, y3⟩ := y
  obtain ⟨z1, z2, z3⟩ := z
  simp only [kltB, decide_eq_true_eq, decide_eq_false_iff_not] at h1 h2 ⊢
  omega

/-- Transitivity of the strict key comparison. -/
theorem kltB_trans (x y z : Int × Int × Int)
    (h1 : kltB x y = true) (h2 : kltB y z = true) : kltB x z = true := by
  obtain ⟨x1, x2, x3⟩ := x
  obtain ⟨y1, y2, y3⟩ := y
  obtain ⟨z1, z2, z3⟩ := z
  simp only [kltB, decide_eq_true_eq] at h1 h2 ⊢
  omega

/- ===== Running-best characterization ===== -/

/-- Invariant of the running-best fold started at `some b`: either `b`
survives (and then no later eligible element beats it), or the final winner
is some eligible element that strictly beats `b`, placed so that every
earlier eligible element is strictly beaten by it and no later eligible
element beats it. -/
theorem pickFold_some {α : Type} (elig : α → Bool) (slt : α → α → Bool)
    (hL1 : ∀ x y z, slt x y = false → slt x z = true → slt y z = true)
    (hL2 : ∀ x y z, slt x y = true → slt y z = true → slt x z = true) :
    ∀ (l : List α) (b f : α),
      l.foldl (pickStep elig slt) (some b) = some f →
      (f = b ∧ ∀ g ∈ l, elig g = true → slt b g = false) ∨
      (elig f = true ∧ slt b f = true ∧
        ∃ l₁ l₂, l = l₁ ++ f :: l₂ ∧
          (∀ g ∈ l₁, elig g = true → slt g f = true) ∧
          (∀ g ∈ l₂, elig g = true → slt f g = false)) := by
  intro l
  induction l with
  | nil =>
    intro b f h
    simp only [List.foldl_nil, Option.some.injEq] at h
    exact Or.inl ⟨h.symm, by simp⟩
  | cons a t ih =>
    intro b f h
    rw [List.foldl_cons] at h
    by_cases hea : elig a = true
    · by_cases hba : slt b a = true
      · have hstep : pickStep elig slt (some b) a = some a := by
          simp [pickStep, hea, hba]
        rw [hstep] at h
        rcases ih a f h with ⟨rfl, hall⟩ | ⟨hef, haf, l₁, l₂, hsplit, hl₁, hl₂⟩
        · exact Or.inr ⟨hea, hba, [], t, rfl, by simp, hall⟩
        · refine Or.inr ⟨hef, hL2 b a f hba haf, a :: l₁, l₂, by simp [hsplit], ?_, hl₂⟩
          intro g hg hge
          rcases List.mem_cons.mp hg with rfl | hg2
          · exact haf
          · exact hl₁ g hg2 hge
      · have hba' : slt b a = false := Bool.eq_false_iff.mpr hba
        have hstep : pickStep elig slt (some b) a = some b := by
          simp [pickStep, hea, hba']
        rw [hstep] at h
        rcases ih b f h with ⟨rfl, hall⟩ | ⟨hef, hbf, l₁, l₂, hsplit, hl₁, hl₂⟩
        · refine Or.inl ⟨rfl, ?_⟩
          intro g hg hge
          rcases List.mem_cons.mp hg with rfl | hg2
          · exact hba'
          · exact hall g hg2 hge
        · refine Or.inr ⟨hef, hbf, a :: l₁, l₂, by simp [hsplit], ?_, hl₂⟩
          intro g hg hge
          rcases List.mem_cons.mp hg with rfl | hg2
          · exact hL1 b g f hba' hbf
          · exact hl₁ g hg2 hge
    · have hea' : elig a = false := Bool.eq_false_iff.mpr hea
      have hstep : pickStep elig slt (some b) a = some b := by
        simp [pickStep, hea']
      rw [hstep] at h
      rcases ih b f h with ⟨rfl, hall⟩ | ⟨hef, hbf, l₁, l₂, hsplit, hl₁, hl₂⟩
      · refine Or.inl ⟨rfl, ?_⟩
        intro g hg hge
        rcases List.mem_cons.mp hg with rfl | hg2
        · exact absurd hge hea
        · exact hall g hg2 hge
      · refine Or.inr ⟨hef, hbf, a :: l₁, l₂, by simp [hsplit], ?_, hl₂⟩
        intro g hg hge
        rcases List.mem_cons.mp hg with rfl | hg2
        · exact absurd hge hea
        · exact hl₁ g hg2 hge

/-- The running-best scan selects the first-encountered maximum: the winner is
eligible, strictly beats every earlier eligible element (so a later element
that merely ties never replaces an earlier one), and is not beaten by any
later eligible element. -/
theorem pickBest_firstMax {α : Type} (elig : α → Bool) (slt : α → α → Bool)
    (hL1 : ∀ x y z, slt x y = false → slt x z = true → slt y z = true)
    (hL2 : ∀ x y z, slt x y = true → slt y z = true → slt x z = true) :
    ∀ (l : List α) (f : α), pickBest elig slt l = some f →
      elig f = true ∧
      ∃ l₁ l₂, l = l₁ ++ f :: l₂ ∧
        (∀ g ∈ l₁, elig g = true → slt g f = true) ∧
        (∀ g ∈ l₂, elig g = true → slt f g = false) := by
  intro l
  induction l with
  | nil => intro f h; simp [pickBest] at h
  | cons a t ih =>
    intro f h
    rw [pickBest, List.foldl_cons] at h
    by_cases hea : elig a = true
    · have hstep : pickStep elig slt none a = some a := by simp [pickStep, hea]
      rw [hstep] at h
      rcases pickFold_some elig slt hL1 hL2 t a f h with
        ⟨rfl, hall⟩ | ⟨hef, haf, l₁, l₂, hsplit, hl₁, hl₂⟩
      · exact ⟨hea, [], t, rfl, by simp, hall⟩
      · refine ⟨hef, a :: l₁, l₂, by simp [hsplit], ?_, hl₂⟩
        intro g hg hge
        rcases List.mem_cons.mp hg with rfl | hg2
        · exact haf
        · exact hl₁ g hg2 hge
    · have hea' : elig a = false := Bool.eq_false_iff.mpr hea
      have hstep : pickStep elig slt none a = none := by simp [pickStep, hea']
      rw [hstep] at h
      obtain ⟨hef, l₁, l₂, hsplit, hl₁, hl₂⟩ := ih f h
      refine ⟨hef, a :: l₁, l₂, by simp [hsplit], ?_, hl₂⟩
      intro g hg hge
      rcases List.mem_cons.mp hg with rfl | hg2
      · exact absurd hge hea
      · exact hl₁ g hg2 hge

/- ===== C4 ===== -/

/-- C4: all three rendition scans — `_best_progressive_mp4`'s single-file
scan and the two independent scans of `_best_separate_mp4_m4a` (video-only on
the `(height, fps, tbr)` key, audio-only on the `abr`-or-`tbr` key) — use a
stable tie-break: the selected format is eligible, strictly beats every
earlier eligible format on its key, and no later eligible format beats it, so
among candidates that compare equal the first-encountered one is chosen and a
later equal candidate never replaces an earlier one. -/
theorem selector_stable_tie_break (l : List Fmt) :
    (∀ f, pickBest progElig progLtB l = some f →
      progElig f = true ∧
      ∃ l₁ l₂, l = l₁ ++ f :: l₂ ∧
        (∀ g ∈ l₁, progElig g = true → progLtB g f = true) ∧
        (∀ g ∈ l₂, progElig g = true → progLtB f g = false)) ∧
    (∀ f, pickBest vElig progLtB l = some f →
      vElig f = true ∧
      ∃ l₁ l₂, l = l₁ ++ f :: l₂ ∧
        (∀ g ∈ l₁, vElig g = true → progLtB g f = true) ∧
        (∀ g ∈ l₂, vElig g = true → progLtB f g = false)) ∧
    (∀ f, pickBest aElig audLtB l = some f →
      aElig f = true ∧
      ∃ l₁ l₂, l = l₁ ++ f :: l₂ ∧
        (∀ g ∈ l₁, aElig g = true → audLtB g f = true) ∧
        (∀ g ∈ l₂, aElig g = true → audLtB f g = false)) := by
  have hp1 : ∀ x y z : Fmt, progLtB x y = false → progLtB x z = true →
      progLtB y z = true :=
    fun x y z h1 h2 => kltB_chain (fmtKey x) (fmtKey y) (fmtKey z) h1 h2
  have hp2 : ∀ x y z : Fmt, progLtB x y = true → progLtB y z = true →
      progLtB x z = true :=
    fun x y z h1 h2 => kltB_trans (fmtKey x) (fmtKey y) (fmtKey z) h1 h2
  have ha1 : ∀ x y z : Fmt, audLtB x y = false → audLtB x z = true →
      audLtB y z = true := by
    intro x y z h1 h2
    simp only [audLtB, decide_eq_true_eq, decide_eq_false_iff_not] at h1 h2 ⊢
    omega
  have ha2 : ∀ x y z : Fmt, audLtB x y = true → audLtB y z = true →
      audLtB x z = true := by
    intro x y z h1 h2
    simp only [audLtB, decide_eq_true_eq] at h1 h2 ⊢
    omega
  exact ⟨fun f => pickBest_firstMax progElig progLtB hp1 hp2 l f,
    fun f => pickBest_firstMax vElig progLtB hp1 hp2 l f,
    fun f => pickBest_firstMax aElig audLtB ha1 ha2 l f⟩

/-- Witness for C4: two progressive mp4 formats with identical
`(height, fps, tbr)` keys — the scan returns the first-encountered one
(format id `"22"`, not the tying later `"23"`). -/
theorem selector_stable_tie_break_witness :
    pickBest progElig progLtB
      [⟨some "mp4", some "avc1", some "mp4a", some 720, some 30, some 1000,
          none, some 5000, none, some "http://a", "22"⟩,
        ⟨some "mp4", some "avc1", some "mp4a", some 720, some 30, some 1000,
          none, some 6000, none, some "http://b", "23"⟩] =
      some ⟨some "mp4", some "avc1", some "mp4a", some 720, some 30, some 1000,
        none, some 5000, none, some "http://a", "22"⟩ ∧
    progElig ⟨some "mp4", some "avc1", some "mp4a", some 720, some 30, some 1000,
      none, some 5000, none, some "http://a", "22"⟩ = true :=
  ⟨by decide,
    ((selector_stable_tie_break
      [⟨some "mp4", some "avc1", some "mp4a", some 720, some 30, some 1000,
          none, some 5000, none, some "http://a", "22"⟩,
        ⟨some "mp4", some "avc1", some "mp4a", some 720, some 30, some 1000,
          none, some 6000, none, some "http://b", "23"⟩]).1
      ⟨some "mp4", some "avc1", some "mp4a", some 720, some 30, some 1000,
        none, some 5000, none, some "http://a", "22"⟩ (by decide)).1⟩

/- ===== Job-plan provenance ===== -/

/-- Any job built by the resolve step whose plan is a video dict got that
dict from the `video_plan` slot of a stored pending entry under the given
request id. -/
theorem resolve_inl_plan_src (mode rid : String) (fromUser mid : Int)
    (pending : List (String × PendingEntry)) (j : Job) (vp : VideoPlan)
    (hj : (on_download_choice_resolve mode rid fromUser mid pending).1 =
      DlOutcome.enqueued j)
    (hplan : j.plan = Sum.inl vp) :
    ∃ e, alookup rid pending = some e ∧ e.video_plan = some vp := by
  unfold on_download_choice_resolve at hj
  cases halk : alookup rid pending with
  | none =>
    rw [halk] at hj
    dsimp only at hj
    exact DlOutcome.noConfusion hj
  | some req =>
    rw [halk] at hj
    dsimp only at hj
    by_cases huser : fromUser ≠ req.user_id
    · rw [if_pos huser] at hj
      exact DlOutcome.noConfusion hj
    · rw [if_neg huser] at hj
      by_cases hmode : mode = "audio"
      · rw [if_pos hmode] at hj
        cases hap : req.audio_plan with
        | none =>
          rw [hap] at hj
          dsimp only at hj
          exact DlOutcome.noConfusion hj
        | some p =>
          rw [hap] at hj
          dsimp only at hj
          injection hj with hx
          subst hx
          dsimp only at hplan
          exact Sum.noConfusion hplan
      · rw [if_neg hmode] at hj
        by_cases hdoc : mode = "doc"
        · rw [if_pos hdoc] at hj
          cases hvp : req.video_plan with
          | none =>
            rw [hvp] at hj
            dsimp only at hj
            exact DlOutcome.noConfusion hj
          | some p =>
            rw [hvp] at hj
            dsimp only at hj
            injection hj with hx
            subst hx
            dsimp only at hplan
            injection hplan with hpv
            subst hpv
            exact ⟨req, rfl, hvp⟩
        · rw [if_neg hdoc] at hj
          cases hvp : req.video_plan with
          | none =>
            rw [hvp] at hj
            dsimp only at hj
            exact DlOutcome.noConfusion hj
          | some p =>
            rw [hvp] at hj
            dsimp only at hj
            injection hj with hx
            subst hx
            dsimp only at hplan
            injection hplan with hpv
            subst hpv
            exact ⟨req, rfl, hvp⟩

/-- Lifting of `resolve_inl_plan_src` through the token parser: any enqueued
job carrying a video dict got it from some stored pending entry. -/
theorem on_download_choice_inl_plan_src (callData : String) (fromUser mid : Int)
    (pending : List (String × PendingEntry)) (j : Job) (vp : VideoPlan)
    (hj : (on_download_choice callData fromUser mid pending).1 =
      DlOutcome.enqueued j)
    (hplan : j.plan = Sum.inl vp) :
    ∃ rid e, alookup rid pending = some e ∧ e.video_plan = some vp := by
  unfold on_download_choice at hj
  rcases hsp : pySplit '|' callData with _ | ⟨a, _ | ⟨m, _ | ⟨r, _ | ⟨x, t⟩⟩⟩⟩
  · rw [hsp] at hj
    dsimp only at hj
    exact DlOutcome.noConfusion hj
  · rw [hsp] at hj
    dsimp only at hj
    exact DlOutcome.noConfusion hj
  · rw [hsp] at hj
    dsimp only at hj
    exact DlOutcome.noConfusion hj
  · rw [hsp] at hj
    dsimp only at hj
    obtain ⟨e, he, hv⟩ := resolve_inl_plan_src m r fromUser mid pending j vp hj hplan
    exact ⟨r, e, he, hv⟩
  · rw [hsp] at hj
    dsimp only at hj
    exact DlOutcome.noConfusion hj

/- ===== C1 ===== -/

/-- C1: the decision gate offers video and document delivery exactly when the
video plan's estimated size is confident, a positive integer, and at most
`MAX_SEND_BYTES` (`fitsCeiling`); document availability always equals video
availability; the audio option is offered exactly when an audio plan exists —
so when video/document are refused, audio is offered alone precisely when
available.  Every video dict stored in a pending entry the gate creates
satisfies `fitsCeiling`, and any store all of whose entries satisfy this
yields, through the selection callback, only video/document jobs whose plan
satisfies `fitsCeiling` — no video/document job is ever enqueued for a plan
not proven to fit the ceiling before any byte moves. -/
theorem decision_gate_safety (now user_id chat_id message_id : Int)
    (url title : String) (vp : VideoPlan) (ap : Option AudioPlan) :
    ((_send_choice_ui_decision now user_id chat_id message_id url title vp
        ap).offer_video = true ↔ fitsCeiling vp) ∧
    ((_send_choice_ui_decision now user_id chat_id message_id url title vp
        ap).offer_doc =
      (_send_choice_ui_decision now user_id chat_id message_id url title vp
        ap).offer_video) ∧
    ((_send_choice_ui_decision now user_id chat_id message_id url title vp
        ap).offer_audio = ap.isSome) ∧
    (∀ e, (_send_choice_ui_decision now user_id chat_id message_id url title vp
        ap).entry = some e →
      ∀ vp2, e.video_plan = some vp2 → vp2 = vp ∧ fitsCeiling vp2) ∧
    (∀ (callData : String) (fromUser mid : Int)
        (pending : List (String × PendingEntry)),
      (∀ rid e, alookup rid pending = some e →
        ∀ vp2, e.video_plan = some vp2 → fitsCeiling vp2) →
      ∀ j, (on_download_choice callData fromUser mid pending).1 =
          DlOutcome.enqueued j →
        ∀ vp2, j.plan = Sum.inl vp2 → fitsCeiling vp2) := by
  refine ⟨?_, ?_, ?_, ?_, ?_⟩
  · simp only [_send_choice_ui_decision]
    cases hs : vp.estimated_size with
    | none =>
      cases hconf : vp.estimated_confident <;> simp [hs, hconf, fitsCeiling]
    | some s =>
      by_cases hpos : 0 < s
      · by_cases hle : s ≤ MAX_SEND_BYTES
        · cases hconf : vp.estimated_confident
          · simp [hs, hconf, fitsCeiling]
          · have hgt : ¬(MAX_SEND_BYTES < s) := not_lt.mpr hle
            simp [hs, hconf, hpos, hle, hgt, fitsCeiling]
        · cases hconf : vp.estimated_confident
          · simp [hs, hconf, fitsCeiling]
          · have hgt : MAX_SEND_BYTES < s := not_le.mp hle
            simp [hs, hconf, hpos, hle, hgt, fitsCeiling]
      · cases hconf : vp.estimated_confident <;>
          simp [hs, hconf, hpos, fitsCeiling]
  · simp only [_send_choice_ui_decision]
    split_ifs <;> rfl
  · simp only [_send_choice_ui_decision]
    split_ifs <;> rfl
  · intro e he vp2 hv
    simp only [_send_choice_ui_decision] at he
    split_ifs at he with h1 h2
    · cases hap : ap with
      | none =>
        rw [hap] at he
        dsimp only at he
        exact Option.noConfusion he
      | some a =>
        rw [hap] at he
        dsimp only at he
        injection he with hx
        subst hx
        dsimp only at hv
        exact Option.noConfusion hv
    · cases hap : ap with
      | none =>
        rw [hap] at he
        dsimp only at he
        exact Option.noConfusion he
      | some a =>
        rw [hap] at he
        dsimp only at he
        injection he with hx
        subst hx
        dsimp only at hv
        exact Option.noConfusion hv
    · dsimp only at he
      injection he with hx
      subst hx
      dsimp only at hv
      injection hv with hpv
      subst hpv
      refine ⟨rfl, ?_⟩
      have hok : (vp.estimated_confident && vp.estimated_size.isSome &&
          decide (0 < vp.estimated_size.getD 0) && vp.estimated_size.isSome &&
          decide (vp.estimated_size.getD 0 ≤ MAX_SEND_BYTES)) = true := by
        cases hX : (vp.estimated_confident && vp.estimated_size.isSome &&
            decide (0 < vp.estimated_size.getD 0) && vp.estimated_size.isSome &&
            decide (vp.estimated_size.getD 0 ≤ MAX_SEND_BYTES)) with
        | true => rfl
        | false => rw [hX] at h2; exact absurd rfl h2
      simp only [Bool.and_eq_true, decide_eq_true_eq] at hok
      obtain ⟨⟨⟨⟨hconf, hsome⟩, hpos⟩, _⟩, hle⟩ := hok
      obtain ⟨s, hs⟩ := Option.isSome_iff_exists.mp hsome
      rw [hs] at hpos hle
      simp only [Option.getD_some] at hpos hle
      exact ⟨hconf, s, hs, hpos, hle⟩
  · intro callData fromUser mid pending hinv j hj vp2 hplan
    obtain ⟨rid, e, he, hv⟩ :=
      on_download_choice_inl_plan_src callData fromUser mid pending j vp2 hj hplan
    exact hinv rid e he vp2 hv

/-- Witness for C1: a confident 1000-byte plan is under the 50 MB ceiling, so
the gate offers video (and, by the theorem, document alongside). -/
theorem decision_gate_safety_witness :
    (_send_choice_ui_decision 0 7 1 2 "u" "t"
        ⟨"progressive", "22", none, some 1000, true, ["http://v"], "720p"⟩
        (some ⟨"bestaudio/best", none, 128, 1000, true, "mp3 128kbps"⟩)).offer_video =
      true ∧
    fitsCeiling ⟨"progressive", "22", none, some 1000, true, ["http://v"], "720p"⟩ := by
  have hfit : fitsCeiling
      ⟨"progressive", "22", none, some 1000, true, ["http://v"], "720p"⟩ :=
    ⟨rfl, 1000, rfl, by decide, by decide⟩
  exact ⟨(decision_gate_safety 0 7 1 2 "u" "t"
    ⟨"progressive", "22", none, some 1000, true, ["http://v"], "720p"⟩
    (some ⟨"bestaudio/best", none, 128, 1000, true, "mp3 128kbps"⟩)).1.mpr hfit, hfit⟩
